import Mathlib

/-!
# Similarity kernel of `app/src/main/cpp/operations.cpp`

A shallow embedding of the five C++ functions of `operations.cpp`:
`L2Norm`, `cosineSimilarity` and the three JNI entry points `nativeL2Norm`,
`nativeCosineSimilarity` and `averageL2Cluster`.

Modelling decisions.

* A `float` is an element of a linearly ordered field `α`; `+`, `-`, `*` are the
  exact field operations (no rounding, no overflow).  The theorems instantiate
  `α` with `ℝ`; the definitions are generic so that they also run on `ℚ`.
* `sqrt` / `sqrtf` is a parameter `sqrt : α → α` of every function that calls
  it; the theorems pass `Real.sqrt`.
* The single `/` of `cosineSimilarity` and of `averageL2Cluster` is the IEEE-754
  division `FloatVal.div`: a zero divisor gives `nan` or an infinity, it is
  not an error.
* A `float*` is an offset into a buffer (a `List α`).  Dereferencing an offset
  outside the buffer is undefined behaviour in C++; the embedding returns
  `none` there.  `some v` means: the function returned `v`.
* `int` counters and sizes are `Int`.  The counters only count from `0` up to
  `size`, so no machine overflow can occur.
* The JNI calls `GetFloatArrayElements`, `GetObjectArrayElement`,
  `ReleaseFloatArrayElements` and `DeleteLocalRef` give access to the
  caller's arrays; the embedding reads the arrays directly.
-/

namespace Operations

/-- The value of a `float` division: a finite quotient or one of the IEEE-754
special values produced by a zero divisor. -/
inductive FloatVal (α : Type) where
  | finite (v : α)
  | nan
  | posInf
  | negInf
  deriving DecidableEq, Repr

/-- IEEE-754 division of two finite values, the divisor being a non-negative
zero when it is zero: `0 / 0` is NaN, `a / 0` is the infinity of the sign of `a`. -/
def FloatVal.div {α : Type} [LinearOrderedField α] (a b : α) : FloatVal α :=
  if b = 0 then
    if a = 0 then FloatVal.nan
    else if 0 < a then FloatVal.posInf
    else FloatVal.negInf
  else FloatVal.finite (a / b)

/-- Local variables of `L2Norm` (and of the inline loop of `nativeL2Norm`):
the two walking pointers, as offsets into their buffers, the counter and the
accumulator. -/
structure L2State (α : Type) where
  baseAddress1 : Nat
  baseAddress2 : Nat
  i : Int
  squaredSum : α
  deriving DecidableEq, Repr

/-- The `while( i < size )` loop of `L2Norm`, lines 10-15. -/
def L2Norm.loop {α : Type} [LinearOrderedField α] (x y : List α) (size : Int)
    (s : L2State α) : Option (L2State α) :=
  if s.i < size then
    match x[s.baseAddress1]?, y[s.baseAddress2]? with
    | some a, some b =>
      L2Norm.loop x y size
        { baseAddress1 := s.baseAddress1 + 1
          baseAddress2 := s.baseAddress2 + 1
          i := s.i + 1
          squaredSum := s.squaredSum + (a - b) * (a - b) }
    | _, _ => none
  else some s
termination_by (size - s.i).toNat
decreasing_by simp_wf; omega

/-- The function `float L2Norm( float* x , float* y , int& size )`, lines 5-17. -/
def L2Norm {α : Type} [LinearOrderedField α] (sqrt : α → α) (x y : List α)
    (size : Int) : Option α :=
  match L2Norm.loop x y size
      { baseAddress1 := 0, baseAddress2 := 0, i := 0, squaredSum := 0 } with
  | some s => some (sqrt s.squaredSum)
  | none => none

/-- Local variables of `cosineSimilarity`. -/
structure CosState (α : Type) where
  elementAddressX : Nat
  elementAddressY : Nat
  i : Int
  squaredSumX : α
  squaredSumY : α
  dotProduct : α
  deriving DecidableEq, Repr

/-- The `while( i < size )` loop of `cosineSimilarity`, lines 24-31. -/
def cosineSimilarity.loop {α : Type} [LinearOrderedField α] (x y : List α)
    (size : Int) (s : CosState α) : Option (CosState α) :=
  if s.i < size then
    match x[s.elementAddressX]?, y[s.elementAddressY]? with
    | some a, some b =>
      cosineSimilarity.loop x y size
        { elementAddressX := s.elementAddressX + 1
          elementAddressY := s.elementAddressY + 1
          i := s.i + 1
          squaredSumX := s.squaredSumX + a * a
          squaredSumY := s.squaredSumY + b * b
          dotProduct := s.dotProduct + a * b }
    | _, _ => none
  else some s
termination_by (size - s.i).toNat
decreasing_by simp_wf; omega

/-- The function `float cosineSimilarity( float* x , float* y , int& size )`,
lines 19-33. -/
def cosineSimilarity {α : Type} [LinearOrderedField α] (sqrt : α → α)
    (x y : List α) (size : Int) : Option (FloatVal α) :=
  match cosineSimilarity.loop x y size
      { elementAddressX := 0, elementAddressY := 0, i := 0,
        squaredSumX := 0, squaredSumY := 0, dotProduct := 0 } with
  | some s =>
    some (FloatVal.div s.dotProduct (sqrt s.squaredSumX * sqrt s.squaredSumY))
  | none => none

/-- The inline `while( i < size )` loop of the JNI entry point `nativeL2Norm`,
lines 46-51; `baseAddress1` and `baseAddress2` of the state stand for its
`baseAddressX` and `baseAddressY`. -/
def nativeL2Norm.loop {α : Type} [LinearOrderedField α] (x y : List α)
    (size : Int) (s : L2State α) : Option (L2State α) :=
  if s.i < size then
    match x[s.baseAddress1]?, y[s.baseAddress2]? with
    | some a, some b =>
      nativeL2Norm.loop x y size
        { baseAddress1 := s.baseAddress1 + 1
          baseAddress2 := s.baseAddress2 + 1
          i := s.i + 1
          squaredSum := s.squaredSum + (a - b) * (a - b) }
    | _, _ => none
  else some s
termination_by (size - s.i).toNat
decreasing_by simp_wf; omega

/-- The JNI entry point `FrameAnalyser.nativeL2Norm(x, y, size)`, lines 36-55. -/
def nativeL2Norm {α : Type} [LinearOrderedField α] (sqrt : α → α)
    (x y : List α) (size : Int) : Option α :=
  match nativeL2Norm.loop x y size
      { baseAddress1 := 0, baseAddress2 := 0, i := 0, squaredSum := 0 } with
  | some s => some (sqrt s.squaredSum)
  | none => none

/-- The JNI entry point `FrameAnalyser.nativeCosineSimilarity(x, y, size)`,
lines 58-70: it hands the two element buffers to `cosineSimilarity`. -/
def nativeCosineSimilarity {α : Type} [LinearOrderedField α] (sqrt : α → α)
    (x y : List α) (size : Int) : Option (FloatVal α) :=
  cosineSimilarity sqrt x y size

/-- Local variables of the `for` loop of `averageL2Cluster`. -/
structure ClusterState (α : Type) where
  i : Int
  scoreSum : α
  deriving DecidableEq, Repr

/-- The `for( int i = 0 ; i < clusterSize ; i++ )` loop of `averageL2Cluster`,
lines 85-90.  `GetObjectArrayElement( cluster , i )` past the end of the
array yields no array to read, which the embedding reports as `none`. -/
def averageL2Cluster.loop {α : Type} [LinearOrderedField α] (sqrt : α → α)
    (subjectEmbedding : List α) (embeddingSize : Int) (cluster : List (List α))
    (clusterSize : Int) (s : ClusterState α) : Option (ClusterState α) :=
  if s.i < clusterSize then
    match cluster[s.i.toNat]? with
    | some clusterEmbedding =>
      match L2Norm sqrt subjectEmbedding clusterEmbedding embeddingSize with
      | some d =>
        averageL2Cluster.loop sqrt subjectEmbedding embeddingSize cluster
          clusterSize { i := s.i + 1, scoreSum := s.scoreSum + d }
      | none => none
    | none => none
  else some s
termination_by (clusterSize - s.i).toNat
decreasing_by simp_wf; omega

/-- The JNI entry point
`FrameAnalyser.averageL2Cluster(subjectEmbedding, embeddingSize, cluster, clusterSize)`,
lines 74-96. -/
def averageL2Cluster {α : Type} [LinearOrderedField α] (sqrt : α → α)
    (subjectEmbedding : List α) (embeddingSize : Int) (cluster : List (List α))
    (clusterSize : Int) : Option (FloatVal α) :=
  match averageL2Cluster.loop sqrt subjectEmbedding embeddingSize cluster
      clusterSize { i := 0, scoreSum := 0 } with
  | some s => some (FloatVal.div s.scoreSum (clusterSize : α))
  | none => none

/-! ## Sums, member distances and loop bodies the theorems are stated with -/

section Sums

variable {α : Type} [LinearOrderedField α]

/-- Sum of the squared differences of the first `n` elements of two buffers. -/
def sqDiffSum (x y : List α) (n : Nat) : α :=
  ∑ j ∈ Finset.range n, (x.getD j 0 - y.getD j 0) ^ 2

/-- Dot product of the first `n` elements of two buffers. -/
def dotSum (x y : List α) (n : Nat) : α :=
  ∑ j ∈ Finset.range n, x.getD j 0 * y.getD j 0

/-- Sum of the squares of the first `n` elements of a buffer. -/
def sqSum (x : List α) (n : Nat) : α :=
  ∑ j ∈ Finset.range n, x.getD j 0 ^ 2

/-- The distance that iteration `j` of `averageL2Cluster` adds to `scoreSum`:
`none` when the cluster has no member `j` or `L2Norm` reads outside a buffer. -/
def memberDistance (sqrt : α → α) (subjectEmbedding : List α) (embeddingSize : Int)
    (cluster : List (List α)) (j : Nat) : Option α :=
  (cluster[j]?).bind (fun m => L2Norm sqrt subjectEmbedding m embeddingSize)

/-- One pass through the body of the `while` loop of `L2Norm`, lines 11-14;
the inline loop of `nativeL2Norm`, lines 47-50, has the same body. -/
def L2Norm.body (x y : List α) (s : L2State α) : Option (L2State α) :=
  match x[s.baseAddress1]?, y[s.baseAddress2]? with
  | some a, some b =>
    some { baseAddress1 := s.baseAddress1 + 1
           baseAddress2 := s.baseAddress2 + 1
           i := s.i + 1
           squaredSum := s.squaredSum + (a - b) * (a - b) }
  | _, _ => none

/-- One pass through the body of the `while` loop of `cosineSimilarity`,
lines 25-30. -/
def cosineSimilarity.body (x y : List α) (s : CosState α) : Option (CosState α) :=
  match x[s.elementAddressX]?, y[s.elementAddressY]? with
  | some a, some b =>
    some { elementAddressX := s.elementAddressX + 1
           elementAddressY := s.elementAddressY + 1
           i := s.i + 1
           squaredSumX := s.squaredSumX + a * a
           squaredSumY := s.squaredSumY + b * b
           dotProduct := s.dotProduct + a * b }
  | _, _ => none

/-- The state after `k` passes through a loop body, one after the other;
`none` when one of them reads outside a buffer. -/
def iterateBody {σ : Type} (body : σ → Option σ) : Nat → σ → Option σ
  | 0, s => some s
  | k + 1, s => (body s).bind (iterateBody body k)

end Sums

/-! ## The loops in closed form -/

section Loops

variable {α : Type} [LinearOrderedField α]

theorem getElem?_eq_some_getD (x : List α) (p : Nat) (h : p < x.length) :
    x[p]? = some (x.getD p 0) := by
  simp [List.getD, List.getElem?_eq_getElem h]

/-- Run from a state with `k` iterations to go and `k` readable elements left
in both buffers, the loop of `L2Norm` ends having added the `k` squared
differences. -/
theorem L2Norm_loop_eq (x y : List α) (size : Int) :
    ∀ (k : Nat) (s : L2State α), (size - s.i).toNat = k →
      s.baseAddress1 + k ≤ x.length → s.baseAddress2 + k ≤ y.length →
      L2Norm.loop x y size s = some
        { baseAddress1 := s.baseAddress1 + k
          baseAddress2 := s.baseAddress2 + k
          i := s.i + k
          squaredSum := s.squaredSum + ∑ j ∈ Finset.range k,
            (x.getD (s.baseAddress1 + j) 0 - y.getD (s.baseAddress2 + j) 0) ^ 2 } := by
  intro k
  induction k with
  | zero =>
    intro s hk _ _
    have hi : ¬ s.i < size := by omega
    rw [L2Norm.loop]
    simp [hi]
  | succ k ih =>
    intro s hk hx hy
    have hi : s.i < size := by omega
    rw [L2Norm.loop]
    rw [getElem?_eq_some_getD x s.baseAddress1 (by omega),
      getElem?_eq_some_getD y s.baseAddress2 (by omega)]
    simp only [hi, if_true]
    rw [ih _ (by simp only; omega) (by simp only; omega) (by simp only; omega)]
    have hsum : ∀ j : Nat,
        (x.getD (s.baseAddress1 + 1 + j) 0 - y.getD (s.baseAddress2 + 1 + j) 0) ^ 2 =
        (x.getD (s.baseAddress1 + (j + 1)) 0 - y.getD (s.baseAddress2 + (j + 1)) 0) ^ 2 := by
      intro j
      rw [Nat.add_assoc, Nat.add_assoc, Nat.add_comm 1 j]
    simp only [Finset.sum_range_succ', Nat.add_zero, Nat.cast_add, Nat.cast_one, hsum]
    congr 2
    · omega
    · omega
    · ring
    · ring

/-- When one of the two buffers has fewer than `k` readable elements left and
`k` iterations are to go, the loop of `L2Norm` reads outside a buffer. -/
theorem L2Norm_loop_none (x y : List α) (size : Int) :
    ∀ (k : Nat) (s : L2State α), (size - s.i).toNat = k →
      s.baseAddress1 ≤ x.length → s.baseAddress2 ≤ y.length →
      (x.length < s.baseAddress1 + k ∨ y.length < s.baseAddress2 + k) →
      L2Norm.loop x y size s = none := by
  intro k
  induction k with
  | zero =>
    intro s _ hx hy h
    omega
  | succ k ih =>
    intro s hk hx hy h
    have hi : s.i < size := by omega
    rw [L2Norm.loop]
    simp only [hi, if_true]
    by_cases h1 : s.baseAddress1 < x.length
    · by_cases h2 : s.baseAddress2 < y.length
      · rw [getElem?_eq_some_getD x s.baseAddress1 h1,
          getElem?_eq_some_getD y s.baseAddress2 h2]
        exact ih _ (by simp only; omega) (by simp only; omega) (by simp only; omega)
          (by simp only; omega)
      · rw [List.getElem?_eq_none (by omega : y.length ≤ s.baseAddress2)]
        cases x[s.baseAddress1]? <;> rfl
    · rw [List.getElem?_eq_none (by omega : x.length ≤ s.baseAddress1)]

/-- The inline loop of `nativeL2Norm` and the loop of `L2Norm` run alike. -/
theorem nativeL2Norm_loop_eq_L2Norm_loop (x y : List α) (size : Int) :
    ∀ (k : Nat) (s : L2State α), (size - s.i).toNat = k →
      nativeL2Norm.loop x y size s = L2Norm.loop x y size s := by
  intro k
  induction k with
  | zero =>
    intro s hk
    have hi : ¬ s.i < size := by omega
    rw [nativeL2Norm.loop, L2Norm.loop]
    simp [hi]
  | succ k ih =>
    intro s hk
    have hi : s.i < size := by omega
    rw [nativeL2Norm.loop, L2Norm.loop]
    simp only [hi, if_true]
    cases x[s.baseAddress1]? with
    | none => rfl
    | some a =>
      cases y[s.baseAddress2]? with
      | none => rfl
      | some b => exact ih _ (by simp only; omega)

/-- Run from a state with `k` iterations to go and `k` readable elements left
in both buffers, the loop of `cosineSimilarity` ends having added the `k`
products to each of its three accumulators. -/
theorem cosineSimilarity_loop_eq (x y : List α) (size : Int) :
    ∀ (k : Nat) (s : CosState α), (size - s.i).toNat = k →
      s.elementAddressX + k ≤ x.length → s.elementAddressY + k ≤ y.length →
      cosineSimilarity.loop x y size s = some
        { elementAddressX := s.elementAddressX + k
          elementAddressY := s.elementAddressY + k
          i := s.i + k
          squaredSumX := s.squaredSumX + ∑ j ∈ Finset.range k,
            x.getD (s.elementAddressX + j) 0 ^ 2
          squaredSumY := s.squaredSumY + ∑ j ∈ Finset.range k,
            y.getD (s.elementAddressY + j) 0 ^ 2
          dotProduct := s.dotProduct + ∑ j ∈ Finset.range k,
            x.getD (s.elementAddressX + j) 0 * y.getD (s.elementAddressY + j) 0 } := by
  intro k
  induction k with
  | zero =>
    intro s hk _ _
    have hi : ¬ s.i < size := by omega
    rw [cosineSimilarity.loop]
    simp [hi]
  | succ k ih =>
    intro s hk hx hy
    have hi : s.i < size := by omega
    rw [cosineSimilarity.loop]
    rw [getElem?_eq_some_getD x s.elementAddressX (by omega),
      getElem?_eq_some_getD y s.elementAddressY (by omega)]
    simp only [hi, if_true]
    rw [ih _ (by simp only; omega) (by simp only; omega) (by simp only; omega)]
    have hX : ∀ j : Nat, x.getD (s.elementAddressX + 1 + j) 0 =
        x.getD (s.elementAddressX + (j + 1)) 0 := by
      intro j
      rw [Nat.add_assoc, Nat.add_comm 1 j]
    have hY : ∀ j : Nat, y.getD (s.elementAddressY + 1 + j) 0 =
        y.getD (s.elementAddressY + (j + 1)) 0 := by
      intro j
      rw [Nat.add_assoc, Nat.add_comm 1 j]
    simp only [Finset.sum_range_succ', Nat.add_zero, Nat.cast_add, Nat.cast_one, hX, hY]
    congr 2
    · omega
    · omega
    · ring
    · ring
    · ring
    · ring

/-- When one of the two buffers has fewer than `k` readable elements left and
`k` iterations are to go, the loop of `cosineSimilarity` reads outside a
buffer. -/
theorem cosineSimilarity_loop_none (x y : List α) (size : Int) :
    ∀ (k : Nat) (s : CosState α), (size - s.i).toNat = k →
      s.elementAddressX ≤ x.length → s.elementAddressY ≤ y.length →
      (x.length < s.elementAddressX + k ∨ y.length < s.elementAddressY + k) →
      cosineSimilarity.loop x y size s = none := by
  intro k
  induction k with
  | zero =>
    intro s _ hx hy h
    omega
  | succ k ih =>
    intro s hk hx hy h
    have hi : s.i < size := by omega
    rw [cosineSimilarity.loop]
    simp only [hi, if_true]
    by_cases h1 : s.elementAddressX < x.length
    · by_cases h2 : s.elementAddressY < y.length
      · rw [getElem?_eq_some_getD x s.elementAddressX h1,
          getElem?_eq_some_getD y s.elementAddressY h2]
        exact ih _ (by simp only; omega) (by simp only; omega) (by simp only; omega)
          (by simp only; omega)
      · rw [List.getElem?_eq_none (by omega : y.length ≤ s.elementAddressY)]
        cases x[s.elementAddressX]? <;> rfl
    · rw [List.getElem?_eq_none (by omega : x.length ≤ s.elementAddressX)]

/-- Run from a state with `k` iterations to go, each of which finds its member
and gets a distance `d j` from `L2Norm`, the loop of `averageL2Cluster` ends
having added these `k` distances. -/
theorem averageL2Cluster_loop_eq (sqrt : α → α) (subjectEmbedding : List α)
    (embeddingSize : Int) (cluster : List (List α)) (clusterSize : Int) (d : Nat → α)
    (hd : ∀ j : Nat, (j : Int) < clusterSize →
      memberDistance sqrt subjectEmbedding embeddingSize cluster j = some (d j)) :
    ∀ (k : Nat) (s : ClusterState α), 0 ≤ s.i → (clusterSize - s.i).toNat = k →
      averageL2Cluster.loop sqrt subjectEmbedding embeddingSize cluster clusterSize s =
        some { i := s.i + k
               scoreSum := s.scoreSum + ∑ j ∈ Finset.range k, d (s.i.toNat + j) } := by
  intro k
  induction k with
  | zero =>
    intro s _ hk
    have hi : ¬ s.i < clusterSize := by omega
    rw [averageL2Cluster.loop]
    simp [hi]
  | succ k ih =>
    intro s h0 hk
    have hi : s.i < clusterSize := by omega
    have hm := hd s.i.toNat (by omega)
    rw [averageL2Cluster.loop]
    simp only [hi, if_true]
    unfold memberDistance at hm
    cases hc : cluster[s.i.toNat]? with
    | none => rw [hc] at hm; simp at hm
    | some m =>
      rw [hc] at hm
      simp only [Option.some_bind] at hm
      simp only [hm]
      rw [ih _ (by simp only; omega) (by simp only; omega)]
      have hidx : ∀ j : Nat, d ((s.i + 1).toNat + j) = d (s.i.toNat + (j + 1)) := by
        intro j
        congr 1
        omega
      simp only [Finset.sum_range_succ', Nat.add_zero, Nat.cast_add, Nat.cast_one, hidx]
      congr 2
      · ring
      · ring

/-- When some iteration still to run finds no member or a faulting `L2Norm`,
the loop of `averageL2Cluster` faults. -/
theorem averageL2Cluster_loop_none (sqrt : α → α) (subjectEmbedding : List α)
    (embeddingSize : Int) (cluster : List (List α)) (clusterSize : Int) (j : Nat)
    (hj : (j : Int) < clusterSize)
    (hnone : memberDistance sqrt subjectEmbedding embeddingSize cluster j = none) :
    ∀ (k : Nat) (s : ClusterState α), 0 ≤ s.i → s.i ≤ j → (clusterSize - s.i).toNat = k →
      averageL2Cluster.loop sqrt subjectEmbedding embeddingSize cluster clusterSize s =
        none := by
  intro k
  induction k with
  | zero =>
    intro s _ hs hk
    omega
  | succ k ih =>
    intro s h0 hs hk
    have hi : s.i < clusterSize := by omega
    rw [averageL2Cluster.loop]
    simp only [hi, if_true]
    cases hc : cluster[s.i.toNat]? with
    | none => rfl
    | some m =>
      simp only
      cases hl : L2Norm sqrt subjectEmbedding m embeddingSize with
      | none => rfl
      | some v =>
        simp only
        have hne : s.i ≠ j := by
          intro he
          have : s.i.toNat = j := by omega
          unfold memberDistance at hnone
          rw [← this, hc] at hnone
          simp [hl] at hnone
        exact ih _ (by simp only; omega) (by simp only; omega) (by simp only; omega)

end Loops

/-! ## The functions in closed form -/

section ClosedForms

variable {α : Type} [LinearOrderedField α]

/-- With `size` readable elements in both buffers, `L2Norm` returns the square
root of the sum of the first `size` squared differences. -/
theorem L2Norm_eq (sqrt : α → α) (x y : List α) (size : Int)
    (hx : size.toNat ≤ x.length) (hy : size.toNat ≤ y.length) :
    L2Norm sqrt x y size = some (sqrt (sqDiffSum x y size.toNat)) := by
  unfold L2Norm
  rw [L2Norm_loop_eq x y size size.toNat _ (by simp) (by simpa using hx) (by simpa using hy)]
  simp [sqDiffSum]

/-- With fewer than `size` elements in one of the buffers, `L2Norm` reads
outside that buffer. -/
theorem L2Norm_none (sqrt : α → α) (x y : List α) (size : Int)
    (h : x.length < size.toNat ∨ y.length < size.toNat) :
    L2Norm sqrt x y size = none := by
  unfold L2Norm
  rw [L2Norm_loop_none x y size size.toNat _ (by simp) (by simp) (by simp)
    (by simpa using h)]

/-- The entry point `nativeL2Norm` computes what `L2Norm` computes. -/
theorem nativeL2Norm_eq_L2Norm (sqrt : α → α) (x y : List α) (size : Int) :
    nativeL2Norm sqrt x y size = L2Norm sqrt x y size := by
  unfold nativeL2Norm L2Norm
  rw [nativeL2Norm_loop_eq_L2Norm_loop x y size _ _ rfl]

/-- With `size` readable elements in both buffers, `cosineSimilarity` returns
the quotient of the dot product by the product of the two norms. -/
theorem cosineSimilarity_eq (sqrt : α → α) (x y : List α) (size : Int)
    (hx : size.toNat ≤ x.length) (hy : size.toNat ≤ y.length) :
    cosineSimilarity sqrt x y size = some (FloatVal.div (dotSum x y size.toNat)
      (sqrt (sqSum x size.toNat) * sqrt (sqSum y size.toNat))) := by
  unfold cosineSimilarity
  rw [cosineSimilarity_loop_eq x y size size.toNat _ (by simp) (by simpa using hx)
    (by simpa using hy)]
  simp [dotSum, sqSum]

/-- With fewer than `size` elements in one of the buffers, `cosineSimilarity`
reads outside that buffer. -/
theorem cosineSimilarity_none (sqrt : α → α) (x y : List α) (size : Int)
    (h : x.length < size.toNat ∨ y.length < size.toNat) :
    cosineSimilarity sqrt x y size = none := by
  unfold cosineSimilarity
  rw [cosineSimilarity_loop_none x y size size.toNat _ (by simp) (by simp) (by simp)
    (by simpa using h)]

/-- When each of the first `clusterSize` members exists and has a distance
`d j` to the subject, `averageL2Cluster` returns their sum divided by
`clusterSize`. -/
theorem averageL2Cluster_eq (sqrt : α → α) (subjectEmbedding : List α)
    (embeddingSize : Int) (cluster : List (List α)) (clusterSize : Int) (d : Nat → α)
    (hd : ∀ j : Nat, (j : Int) < clusterSize →
      memberDistance sqrt subjectEmbedding embeddingSize cluster j = some (d j)) :
    averageL2Cluster sqrt subjectEmbedding embeddingSize cluster clusterSize =
      some (FloatVal.div (∑ j ∈ Finset.range clusterSize.toNat, d j) (clusterSize : α)) := by
  unfold averageL2Cluster
  rw [averageL2Cluster_loop_eq sqrt subjectEmbedding embeddingSize cluster clusterSize d hd
    clusterSize.toNat _ (by simp) (by simp)]
  simp

/-- When one of the first `clusterSize` members is missing or makes `L2Norm`
read outside a buffer, `averageL2Cluster` faults. -/
theorem averageL2Cluster_none (sqrt : α → α) (subjectEmbedding : List α)
    (embeddingSize : Int) (cluster : List (List α)) (clusterSize : Int) (j : Nat)
    (hj : (j : Int) < clusterSize)
    (hnone : memberDistance sqrt subjectEmbedding embeddingSize cluster j = none) :
    averageL2Cluster sqrt subjectEmbedding embeddingSize cluster clusterSize = none := by
  unfold averageL2Cluster
  rw [averageL2Cluster_loop_none sqrt subjectEmbedding embeddingSize cluster clusterSize j hj
    hnone clusterSize.toNat _ (by simp) (by simp) (by simp)]

/-- A sum over the indices of a list is the sum of the mapped list. -/
theorem sum_range_getD_eq_sum_map {β : Type} (f : β → α) (l : List β) (d : β) :
    ∑ j ∈ Finset.range l.length, f (l.getD j d) = (l.map f).sum := by
  induction l with
  | nil => simp
  | cons a l ih =>
    simp only [List.length_cons, Finset.sum_range_succ', List.getD_cons_succ,
      List.getD_cons_zero, List.map_cons, List.sum_cons, ih]
    exact add_comm _ _

/-- Called on a whole cluster whose members, like the subject, all hold at
least `embeddingSize` elements, `averageL2Cluster` returns the sum of the
distances over the first `embeddingSize` elements divided by the number of
members. -/
theorem averageL2Cluster_of_lengths (sqrt : α → α) (subjectEmbedding : List α)
    (embeddingSize : Int) (cluster : List (List α))
    (hs : embeddingSize.toNat ≤ subjectEmbedding.length)
    (hm : ∀ m ∈ cluster, embeddingSize.toNat ≤ m.length) :
    averageL2Cluster sqrt subjectEmbedding embeddingSize cluster cluster.length =
      some (FloatVal.div
        (cluster.map (fun m => sqrt (sqDiffSum subjectEmbedding m embeddingSize.toNat))).sum
        (cluster.length : α)) := by
  have h := averageL2Cluster_eq sqrt subjectEmbedding embeddingSize cluster cluster.length
    (fun j => sqrt (sqDiffSum subjectEmbedding (cluster.getD j []) embeddingSize.toNat))
    (by
      intro j hj
      have hj' : j < cluster.length := by omega
      unfold memberDistance
      rw [List.getElem?_eq_getElem hj']
      simp only [Option.some_bind]
      rw [L2Norm_eq sqrt subjectEmbedding _ embeddingSize hs
        (hm _ (List.getElem_mem hj'))]
      simp [List.getD, List.getElem?_eq_getElem hj'])
  rw [h]
  simp only [Int.toNat_ofNat, Int.cast_natCast]
  rw [sum_range_getD_eq_sum_map
    (fun m => sqrt (sqDiffSum subjectEmbedding m embeddingSize.toNat)) cluster []]

/-- Called on a whole cluster one of whose members holds fewer than
`embeddingSize` elements, `averageL2Cluster` reads outside that member. -/
theorem averageL2Cluster_short_member (sqrt : α → α) (subjectEmbedding : List α)
    (embeddingSize : Int) (cluster : List (List α)) (m : List α) (hmem : m ∈ cluster)
    (hshort : m.length < embeddingSize.toNat) :
    averageL2Cluster sqrt subjectEmbedding embeddingSize cluster cluster.length = none := by
  obtain ⟨j, hj, hjm⟩ := List.getElem_of_mem hmem
  apply averageL2Cluster_none sqrt subjectEmbedding embeddingSize cluster cluster.length j
    (by omega)
  unfold memberDistance
  rw [List.getElem?_eq_getElem hj, hjm]
  simp only [Option.some_bind]
  exact L2Norm_none sqrt subjectEmbedding m embeddingSize (Or.inr hshort)

/-- The loop of `L2Norm` tests `i < size`, passes once through its body and
starts over. -/
theorem L2Norm_loop_unfold (x y : List α) (size : Int) (s : L2State α) :
    L2Norm.loop x y size s =
      if s.i < size then (L2Norm.body x y s).bind (L2Norm.loop x y size) else some s := by
  rw [L2Norm.loop]
  unfold L2Norm.body
  by_cases hi : s.i < size
  · simp only [hi, if_true]
    cases x[s.baseAddress1]? with
    | none => rfl
    | some a =>
      cases y[s.baseAddress2]? with
      | none => rfl
      | some b => rfl
  · simp only [hi, if_false]

/-- The loop of `cosineSimilarity` tests `i < size`, passes once through its
body and starts over. -/
theorem cosineSimilarity_loop_unfold (x y : List α) (size : Int) (s : CosState α) :
    cosineSimilarity.loop x y size s =
      if s.i < size then (cosineSimilarity.body x y s).bind (cosineSimilarity.loop x y size)
      else some s := by
  rw [cosineSimilarity.loop]
  unfold cosineSimilarity.body
  by_cases hi : s.i < size
  · simp only [hi, if_true]
    cases x[s.elementAddressX]? with
    | none => rfl
    | some a =>
      cases y[s.elementAddressY]? with
      | none => rfl
      | some b => rfl
  · simp only [hi, if_false]

/-- A pass through the body of `L2Norm` with both pointers inside their
buffers reads the two elements and advances. -/
theorem L2Norm_body_eq (x y : List α) (s : L2State α)
    (hx : s.baseAddress1 < x.length) (hy : s.baseAddress2 < y.length) :
    L2Norm.body x y s = some
      { baseAddress1 := s.baseAddress1 + 1
        baseAddress2 := s.baseAddress2 + 1
        i := s.i + 1
        squaredSum := s.squaredSum + (x.getD s.baseAddress1 0 - y.getD s.baseAddress2 0)
          * (x.getD s.baseAddress1 0 - y.getD s.baseAddress2 0) } := by
  unfold L2Norm.body
  rw [getElem?_eq_some_getD x s.baseAddress1 hx, getElem?_eq_some_getD y s.baseAddress2 hy]

/-- A pass through the body of `cosineSimilarity` with both pointers inside
their buffers reads the two elements and advances. -/
theorem cosineSimilarity_body_eq (x y : List α) (s : CosState α)
    (hx : s.elementAddressX < x.length) (hy : s.elementAddressY < y.length) :
    cosineSimilarity.body x y s = some
      { elementAddressX := s.elementAddressX + 1
        elementAddressY := s.elementAddressY + 1
        i := s.i + 1
        squaredSumX := s.squaredSumX + x.getD s.elementAddressX 0 * x.getD s.elementAddressX 0
        squaredSumY := s.squaredSumY + y.getD s.elementAddressY 0 * y.getD s.elementAddressY 0
        dotProduct := s.dotProduct + x.getD s.elementAddressX 0 * y.getD s.elementAddressY 0 } := by
  unfold cosineSimilarity.body
  rw [getElem?_eq_some_getD x s.elementAddressX hx,
    getElem?_eq_some_getD y s.elementAddressY hy]

/-- With `k` readable elements left in both buffers, `k` passes through the
body of `L2Norm` advance the pointers and the counter by `k` and add the `k`
squared differences. -/
theorem L2Norm_iterateBody_eq (x y : List α) :
    ∀ (k : Nat) (s : L2State α),
      s.baseAddress1 + k ≤ x.length → s.baseAddress2 + k ≤ y.length →
      iterateBody (L2Norm.body x y) k s = some
        { baseAddress1 := s.baseAddress1 + k
          baseAddress2 := s.baseAddress2 + k
          i := s.i + k
          squaredSum := s.squaredSum + ∑ j ∈ Finset.range k,
            (x.getD (s.baseAddress1 + j) 0 - y.getD (s.baseAddress2 + j) 0) ^ 2 } := by
  intro k
  induction k with
  | zero =>
    intro s _ _
    simp [iterateBody]
  | succ k ih =>
    intro s hx hy
    rw [iterateBody, L2Norm_body_eq x y s (by omega) (by omega), Option.some_bind]
    rw [ih _ (by simp only; omega) (by simp only; omega)]
    have hsum : ∀ j : Nat,
        (x.getD (s.baseAddress1 + 1 + j) 0 - y.getD (s.baseAddress2 + 1 + j) 0) ^ 2 =
        (x.getD (s.baseAddress1 + (j + 1)) 0 - y.getD (s.baseAddress2 + (j + 1)) 0) ^ 2 := by
      intro j
      rw [Nat.add_assoc, Nat.add_assoc, Nat.add_comm 1 j]
    simp only [Finset.sum_range_succ', Nat.add_zero, Nat.cast_add, Nat.cast_one, hsum]
    congr 2
    · omega
    · omega
    · ring
    · ring

/-- With `k` readable elements left in both buffers, `k` passes through the
body of `cosineSimilarity` advance the pointers and the counter by `k`. -/
theorem cosineSimilarity_iterateBody_eq (x y : List α) :
    ∀ (k : Nat) (s : CosState α),
      s.elementAddressX + k ≤ x.length → s.elementAddressY + k ≤ y.length →
      iterateBody (cosineSimilarity.body x y) k s = some
        { elementAddressX := s.elementAddressX + k
          elementAddressY := s.elementAddressY + k
          i := s.i + k
          squaredSumX := s.squaredSumX + ∑ j ∈ Finset.range k,
            x.getD (s.elementAddressX + j) 0 ^ 2
          squaredSumY := s.squaredSumY + ∑ j ∈ Finset.range k,
            y.getD (s.elementAddressY + j) 0 ^ 2
          dotProduct := s.dotProduct + ∑ j ∈ Finset.range k,
            x.getD (s.elementAddressX + j) 0 * y.getD (s.elementAddressY + j) 0 } := by
  intro k
  induction k with
  | zero =>
    intro s _ _
    simp [iterateBody]
  | succ k ih =>
    intro s hx hy
    rw [iterateBody, cosineSimilarity_body_eq x y s (by omega) (by omega), Option.some_bind]
    rw [ih _ (by simp only; omega) (by simp only; omega)]
    have hX : ∀ j : Nat, x.getD (s.elementAddressX + 1 + j) 0 =
        x.getD (s.elementAddressX + (j + 1)) 0 := by
      intro j
      rw [Nat.add_assoc, Nat.add_comm 1 j]
    have hY : ∀ j : Nat, y.getD (s.elementAddressY + 1 + j) 0 =
        y.getD (s.elementAddressY + (j + 1)) 0 := by
      intro j
      rw [Nat.add_assoc, Nat.add_comm 1 j]
    simp only [Finset.sum_range_succ', Nat.add_zero, Nat.cast_add, Nat.cast_one, hX, hY]
    congr 2
    · omega
    · omega
    · ring
    · ring
    · ring
    · ring

/-- A buffer that agrees with `x` on the first `n` indices, all of them inside
`x`, holds at least `n` elements and has the same elements there. -/
theorem prefix_agree (x x' : List α) (n : Nat) (hx : n ≤ x.length)
    (h : ∀ j : Nat, j < n → x'[j]? = x[j]?) :
    n ≤ x'.length ∧ ∀ j : Nat, j < n → x'.getD j 0 = x.getD j 0 := by
  constructor
  · by_contra hcon
    have hlt : x'.length < n := by omega
    have h1 := h x'.length hlt
    rw [List.getElem?_eq_none (le_refl _),
      List.getElem?_eq_getElem (by omega : x'.length < x.length)] at h1
    exact Option.noConfusion h1
  · intro j hj
    simp only [List.getD_eq_getElem?_getD]
    rw [h j hj]

end ClosedForms

end Operations

/-! ## The distance and the similarity of two vectors -/

section Claims

open Operations

theorem sqrt_twentyfive : Real.sqrt 25 = 5 := by
  rw [show (25 : ℝ) = 5 ^ 2 by norm_num, Real.sqrt_sq (by norm_num)]

/-- C1: for vectors `x`, `y` of equal length `n`, `L2Norm` and the entry point
`nativeL2Norm` return the square root of the sum over `i` in `0..n-1` of
`(x[i] - y[i])^2`; for `n = 0` the result is `0`; and the distance of
`[0,0,0]` and `[3,4,0]` is `5`. -/
theorem C1_l2Distance_is_sqrt_of_sum_of_squares (x y : List ℝ) (n : Nat)
    (hx : x.length = n) (hy : y.length = n) :
    L2Norm Real.sqrt x y n =
        some (Real.sqrt (∑ i ∈ Finset.range n, (x.getD i 0 - y.getD i 0) ^ 2))
      ∧ nativeL2Norm Real.sqrt x y n =
        some (Real.sqrt (∑ i ∈ Finset.range n, (x.getD i 0 - y.getD i 0) ^ 2))
      ∧ (n = 0 → L2Norm Real.sqrt x y n = some 0 ∧ nativeL2Norm Real.sqrt x y n = some 0)
      ∧ L2Norm Real.sqrt [0, 0, 0] [3, 4, 0] 3 = some 5
      ∧ nativeL2Norm Real.sqrt [0, 0, 0] [3, 4, 0] 3 = some 5 := by
  have key : ∀ (a b : List ℝ) (m : Nat), a.length = m → b.length = m →
      L2Norm Real.sqrt a b m =
        some (Real.sqrt (∑ i ∈ Finset.range m, (a.getD i 0 - b.getD i 0) ^ 2)) := by
    intro a b m ha hb
    have h := L2Norm_eq Real.sqrt a b (m : Int) (by simp [ha]) (by simp [hb])
    simpa [sqDiffSum] using h
  have h5 : L2Norm Real.sqrt [0, 0, 0] [3, 4, 0] 3 = some (5 : ℝ) := by
    have h := key [0, 0, 0] [3, 4, 0] 3 rfl rfl
    rw [show ((3 : Nat) : Int) = 3 from rfl] at h
    rw [h]
    simp only [Finset.sum_range_succ, Finset.sum_range_zero]
    norm_num [sqrt_twentyfive]
  refine ⟨key x y n hx hy, ?_, ?_, h5, ?_⟩
  · rw [nativeL2Norm_eq_L2Norm]
    exact key x y n hx hy
  · intro h0
    subst h0
    rw [nativeL2Norm_eq_L2Norm, key x y 0 hx hy]
    simp
  · rw [nativeL2Norm_eq_L2Norm]
    exact h5

/-- C1 at the vectors `[1, 2]` and `[4, 6]` of length `2`. -/
theorem C1_l2Distance_is_sqrt_of_sum_of_squares_witness :
    L2Norm Real.sqrt [1, 2] [4, 6] ((2 : Nat) : Int) =
      some (Real.sqrt (∑ i ∈ Finset.range 2,
        (([1, 2] : List ℝ).getD i 0 - ([4, 6] : List ℝ).getD i 0) ^ 2)) :=
  (C1_l2Distance_is_sqrt_of_sum_of_squares [1, 2] [4, 6] 2 rfl rfl).1

/-- C9: for every vector `x`, of any length, the distance of `x` to itself
is `0`, for `L2Norm` and for the entry point `nativeL2Norm`. -/
theorem C9_l2Distance_self_is_zero (x : List ℝ) :
    L2Norm Real.sqrt x x x.length = some 0
      ∧ nativeL2Norm Real.sqrt x x x.length = some 0 := by
  have h : L2Norm Real.sqrt x x x.length = some 0 := by
    rw [L2Norm_eq Real.sqrt x x x.length (by simp) (by simp)]
    simp [sqDiffSum]
  exact ⟨h, by rw [nativeL2Norm_eq_L2Norm]; exact h⟩

/-- C10: for vectors `x`, `y` of equal length `n`, `L2Norm` returns a distance
and returns the same one with the operands exchanged. -/
theorem C10_l2Distance_symmetric (x y : List ℝ) (n : Nat)
    (hx : x.length = n) (hy : y.length = n) :
    (∃ d : ℝ, L2Norm Real.sqrt x y n = some d ∧ L2Norm Real.sqrt y x n = some d)
      ∧ (∃ d : ℝ, nativeL2Norm Real.sqrt x y n = some d
          ∧ nativeL2Norm Real.sqrt y x n = some d) := by
  have h : ∃ d : ℝ, L2Norm Real.sqrt x y n = some d ∧ L2Norm Real.sqrt y x n = some d := by
    refine ⟨Real.sqrt (sqDiffSum x y n), ?_, ?_⟩
    · simpa using L2Norm_eq Real.sqrt x y (n : Int) (by simp [hx]) (by simp [hy])
    · have h := L2Norm_eq Real.sqrt y x (n : Int) (by simp [hy]) (by simp [hx])
      rw [h]
      simp only [Int.toNat_ofNat, sqDiffSum]
      congr 2
      apply Finset.sum_congr rfl
      intro i _
      ring
  refine ⟨h, ?_⟩
  simpa only [nativeL2Norm_eq_L2Norm] using h

/-- C10 at the vectors `[1, 2]` and `[4, 6]` of length `2`. -/
theorem C10_l2Distance_symmetric_witness :
    ∃ d : ℝ, L2Norm Real.sqrt [1, 2] [4, 6] ((2 : Nat) : Int) = some d
      ∧ L2Norm Real.sqrt [4, 6] [1, 2] ((2 : Nat) : Int) = some d :=
  (C10_l2Distance_symmetric [1, 2] [4, 6] 2 rfl rfl).1

theorem FloatVal_div_of_ne_zero (a b : ℝ) (hb : b ≠ 0) :
    FloatVal.div a b = FloatVal.finite (a / b) := by
  simp [FloatVal.div, hb]

theorem FloatVal_div_zero_zero : FloatVal.div (0 : ℝ) 0 = FloatVal.nan := by
  simp [FloatVal.div]

/-- Cauchy-Schwarz for finite sums, with the absolute value of the product sum. -/
theorem abs_sum_mul_le_sqrt_mul_sqrt (n : Nat) (f g : Nat → ℝ) :
    |∑ i ∈ Finset.range n, f i * g i|
      ≤ Real.sqrt (∑ i ∈ Finset.range n, f i ^ 2) * Real.sqrt (∑ i ∈ Finset.range n, g i ^ 2) := by
  rw [abs_le]
  constructor
  · have h := Real.sum_mul_le_sqrt_mul_sqrt (Finset.range n) (fun i => -f i) g
    simp only [neg_mul, Finset.sum_neg_distrib, neg_sq] at h
    linarith
  · exact Real.sum_mul_le_sqrt_mul_sqrt (Finset.range n) f g

/-- Minkowski for finite sums of squares. -/
theorem sqrt_sum_add_sq_le (n : Nat) (f g : Nat → ℝ) :
    Real.sqrt (∑ i ∈ Finset.range n, (f i + g i) ^ 2)
      ≤ Real.sqrt (∑ i ∈ Finset.range n, f i ^ 2) + Real.sqrt (∑ i ∈ Finset.range n, g i ^ 2) := by
  have hA : 0 ≤ ∑ i ∈ Finset.range n, f i ^ 2 := Finset.sum_nonneg (fun i _ => sq_nonneg _)
  have hB : 0 ≤ ∑ i ∈ Finset.range n, g i ^ 2 := Finset.sum_nonneg (fun i _ => sq_nonneg _)
  have hcs := Real.sum_mul_le_sqrt_mul_sqrt (Finset.range n) f g
  rw [Real.sqrt_le_iff]
  refine ⟨add_nonneg (Real.sqrt_nonneg _) (Real.sqrt_nonneg _), ?_⟩
  have hexp : ∑ i ∈ Finset.range n, (f i + g i) ^ 2
      = ∑ i ∈ Finset.range n, f i ^ 2 + ∑ i ∈ Finset.range n, g i ^ 2
        + 2 * ∑ i ∈ Finset.range n, f i * g i := by
    rw [Finset.mul_sum, ← Finset.sum_add_distrib, ← Finset.sum_add_distrib]
    apply Finset.sum_congr rfl
    intro i _
    ring
  rw [hexp, add_sq, Real.sq_sqrt hA, Real.sq_sqrt hB]
  linarith

/-- C2: for vectors `x`, `y` of equal length `n`, `cosineSimilarity` (and the
entry point `nativeCosineSimilarity`) returns the quotient of the dot product
`sum x[i]*y[i]` by `sqrt(sum x[i]^2) * sqrt(sum y[i]^2)`, which is the real
quotient when both norms are nonzero; the similarity of `[1,0]` and `[0,1]`
is `0`. -/
theorem C2_cosineSimilarity_is_dot_over_norms (x y : List ℝ) (n : Nat)
    (hx : x.length = n) (hy : y.length = n) :
    cosineSimilarity Real.sqrt x y n =
        some (FloatVal.div (∑ i ∈ Finset.range n, x.getD i 0 * y.getD i 0)
          (Real.sqrt (∑ i ∈ Finset.range n, x.getD i 0 ^ 2)
            * Real.sqrt (∑ i ∈ Finset.range n, y.getD i 0 ^ 2)))
      ∧ nativeCosineSimilarity Real.sqrt x y n = cosineSimilarity Real.sqrt x y n
      ∧ (Real.sqrt (∑ i ∈ Finset.range n, x.getD i 0 ^ 2) ≠ 0 →
          Real.sqrt (∑ i ∈ Finset.range n, y.getD i 0 ^ 2) ≠ 0 →
          cosineSimilarity Real.sqrt x y n =
            some (FloatVal.finite ((∑ i ∈ Finset.range n, x.getD i 0 * y.getD i 0)
              / (Real.sqrt (∑ i ∈ Finset.range n, x.getD i 0 ^ 2)
                * Real.sqrt (∑ i ∈ Finset.range n, y.getD i 0 ^ 2)))))
      ∧ cosineSimilarity Real.sqrt [1, 0] [0, 1] 2 = some (FloatVal.finite 0) := by
  have key : ∀ (a b : List ℝ) (m : Nat), a.length = m → b.length = m →
      cosineSimilarity Real.sqrt a b m =
        some (FloatVal.div (∑ i ∈ Finset.range m, a.getD i 0 * b.getD i 0)
          (Real.sqrt (∑ i ∈ Finset.range m, a.getD i 0 ^ 2)
            * Real.sqrt (∑ i ∈ Finset.range m, b.getD i 0 ^ 2))) := by
    intro a b m ha hb
    have h := cosineSimilarity_eq Real.sqrt a b (m : Int) (by simp [ha]) (by simp [hb])
    simpa [dotSum, sqSum] using h
  refine ⟨key x y n hx hy, rfl, ?_, ?_⟩
  · intro h1 h2
    rw [key x y n hx hy, FloatVal_div_of_ne_zero _ _ (mul_ne_zero h1 h2)]
  · have h := key [1, 0] [0, 1] 2 rfl rfl
    rw [show ((2 : Nat) : Int) = 2 from rfl] at h
    rw [h]
    simp [Finset.sum_range_succ, FloatVal.div]

/-- C2 at the vectors `[1, 2]` and `[3, 4]` of length `2`. -/
theorem C2_cosineSimilarity_is_dot_over_norms_witness :
    cosineSimilarity Real.sqrt [1, 2] [3, 4] ((2 : Nat) : Int) =
      some (FloatVal.div (∑ i ∈ Finset.range 2,
          ([1, 2] : List ℝ).getD i 0 * ([3, 4] : List ℝ).getD i 0)
        (Real.sqrt (∑ i ∈ Finset.range 2, ([1, 2] : List ℝ).getD i 0 ^ 2)
          * Real.sqrt (∑ i ∈ Finset.range 2, ([3, 4] : List ℝ).getD i 0 ^ 2))) :=
  (C2_cosineSimilarity_is_dot_over_norms [1, 2] [3, 4] 2 rfl rfl).1

/-- C7: for vectors `x`, `y`, `z` of equal length `n`, `L2Norm` returns the
three distances and the one from `x` to `z` is at most the sum of the ones
from `x` to `y` and from `y` to `z`. -/
theorem C7_l2Distance_triangle (x y z : List ℝ) (n : Nat)
    (hx : x.length = n) (hy : y.length = n) (hz : z.length = n) :
    ∃ dxz dxy dyz : ℝ, L2Norm Real.sqrt x z n = some dxz
      ∧ L2Norm Real.sqrt x y n = some dxy
      ∧ L2Norm Real.sqrt y z n = some dyz
      ∧ dxz ≤ dxy + dyz := by
  refine ⟨Real.sqrt (sqDiffSum x z n), Real.sqrt (sqDiffSum x y n),
    Real.sqrt (sqDiffSum y z n), ?_, ?_, ?_, ?_⟩
  · simpa using L2Norm_eq Real.sqrt x z (n : Int) (by simp [hx]) (by simp [hz])
  · simpa using L2Norm_eq Real.sqrt x y (n : Int) (by simp [hx]) (by simp [hy])
  · simpa using L2Norm_eq Real.sqrt y z (n : Int) (by simp [hy]) (by simp [hz])
  · have h := sqrt_sum_add_sq_le n (fun i => x.getD i 0 - y.getD i 0)
      (fun i => y.getD i 0 - z.getD i 0)
    simp only [sub_add_sub_cancel] at h
    exact h

/-- C7 at the vectors `[0, 0]`, `[3, 0]` and `[3, 4]` of length `2`. -/
theorem C7_l2Distance_triangle_witness :
    ∃ dxz dxy dyz : ℝ, L2Norm Real.sqrt [0, 0] [3, 4] ((2 : Nat) : Int) = some dxz
      ∧ L2Norm Real.sqrt [0, 0] [3, 0] ((2 : Nat) : Int) = some dxy
      ∧ L2Norm Real.sqrt [3, 0] [3, 4] ((2 : Nat) : Int) = some dyz
      ∧ dxz ≤ dxy + dyz :=
  C7_l2Distance_triangle [0, 0] [3, 0] [3, 4] 2 rfl rfl rfl

/-- C8: for vectors `x`, `y` of equal length `n` that both have a nonzero
norm, `cosineSimilarity` returns a finite value in the closed interval
`[-1, 1]`. -/
theorem C8_cosineSimilarity_in_unit_interval (x y : List ℝ) (n : Nat)
    (hx : x.length = n) (hy : y.length = n)
    (hnx : Real.sqrt (∑ i ∈ Finset.range n, x.getD i 0 ^ 2) ≠ 0)
    (hny : Real.sqrt (∑ i ∈ Finset.range n, y.getD i 0 ^ 2) ≠ 0) :
    ∃ c : ℝ, cosineSimilarity Real.sqrt x y n = some (FloatVal.finite c)
      ∧ -1 ≤ c ∧ c ≤ 1 := by
  have h := cosineSimilarity_eq Real.sqrt x y (n : Int) (by simp [hx]) (by simp [hy])
  simp only [Int.toNat_ofNat, dotSum, sqSum] at h
  rw [FloatVal_div_of_ne_zero _ _ (mul_ne_zero hnx hny)] at h
  refine ⟨_, h, ?_⟩
  have hpos : 0 < Real.sqrt (∑ i ∈ Finset.range n, x.getD i 0 ^ 2)
      * Real.sqrt (∑ i ∈ Finset.range n, y.getD i 0 ^ 2) :=
    mul_pos (lt_of_le_of_ne (Real.sqrt_nonneg _) (Ne.symm hnx))
      (lt_of_le_of_ne (Real.sqrt_nonneg _) (Ne.symm hny))
  have hcs := abs_sum_mul_le_sqrt_mul_sqrt n (fun i => x.getD i 0) (fun i => y.getD i 0)
  rw [abs_le] at hcs
  constructor
  · rw [le_div_iff₀ hpos]
    linarith [hcs.1]
  · rw [div_le_one hpos]
    exact hcs.2

/-- C8 at the vectors `[1, 0]` and `[0, 1]` of length `2`. -/
theorem C8_cosineSimilarity_in_unit_interval_witness :
    ∃ c : ℝ, cosineSimilarity Real.sqrt [1, 0] [0, 1] ((2 : Nat) : Int)
        = some (FloatVal.finite c) ∧ -1 ≤ c ∧ c ≤ 1 :=
  C8_cosineSimilarity_in_unit_interval [1, 0] [0, 1] 2 rfl rfl
    (by simp [Finset.sum_range_succ]) (by simp [Finset.sum_range_succ])

/-- C3: for a subject `s` of length `L` and a non-empty cluster of `N` vectors
of length `L`, `L2Norm` returns a distance for every member and
`averageL2Cluster` returns the sum of these distances divided by `N`; for a
cluster `[a, b]` this is `(l2Distance(s,a) + l2Distance(s,b)) / 2`, and for
the subject `[0,0]` and the cluster `[[0,0],[3,4]]` it is `2.5`. -/
theorem C3_averageDistance_is_mean_of_distances (s : List ℝ) (cluster : List (List ℝ))
    (hne : cluster ≠ []) (hlen : ∀ m ∈ cluster, m.length = s.length) :
    (∀ m ∈ cluster, L2Norm Real.sqrt s m s.length
        = some (Real.sqrt (∑ i ∈ Finset.range s.length, (s.getD i 0 - m.getD i 0) ^ 2)))
      ∧ averageL2Cluster Real.sqrt s s.length cluster cluster.length =
        some (FloatVal.finite ((cluster.map (fun m =>
          Real.sqrt (∑ i ∈ Finset.range s.length, (s.getD i 0 - m.getD i 0) ^ 2))).sum
            / cluster.length))
      ∧ (∀ a b : List ℝ, ∀ da db : ℝ, cluster = [a, b] →
          L2Norm Real.sqrt s a s.length = some da →
          L2Norm Real.sqrt s b s.length = some db →
          averageL2Cluster Real.sqrt s s.length cluster cluster.length =
            some (FloatVal.finite ((da + db) / 2)))
      ∧ averageL2Cluster Real.sqrt [0, 0] 2 [[0, 0], [3, 4]] 2 =
          some (FloatVal.finite 2.5) := by
  have hmem : ∀ m ∈ cluster, L2Norm Real.sqrt s m s.length
      = some (Real.sqrt (∑ i ∈ Finset.range s.length, (s.getD i 0 - m.getD i 0) ^ 2)) := by
    intro m hm
    have h := L2Norm_eq Real.sqrt s m (s.length : Int) (by simp) (by simp [hlen m hm])
    simpa [sqDiffSum] using h
  have key : ∀ (t : List ℝ) (c : List (List ℝ)), c ≠ [] → (∀ m ∈ c, m.length = t.length) →
      averageL2Cluster Real.sqrt t t.length c c.length =
        some (FloatVal.finite ((c.map (fun m =>
          Real.sqrt (∑ i ∈ Finset.range t.length, (t.getD i 0 - m.getD i 0) ^ 2))).sum
            / c.length)) := by
    intro t c hc hl
    have h := averageL2Cluster_of_lengths Real.sqrt t (t.length : Int) c (by simp)
      (by intro m hm; simp [hl m hm])
    have hN : (c.length : ℝ) ≠ 0 := by
      simpa using hc
    rw [h, FloatVal_div_of_ne_zero _ _ hN]
    simp [sqDiffSum]
  refine ⟨hmem, key s cluster hne hlen, ?_, ?_⟩
  · intro a b da db hc ha hb
    rw [key s cluster hne hlen]
    subst hc
    rw [hmem a (by simp)] at ha
    rw [hmem b (by simp)] at hb
    simp only [Option.some.injEq] at ha hb
    simp only [List.map_cons, List.map_nil, List.sum_cons, List.sum_nil, List.length_cons,
      List.length_nil, ha, hb]
    norm_num
  · have h := key [0, 0] [[0, 0], [3, 4]] (by simp) (by simp)
    simp only [List.length_cons, List.length_nil] at h
    rw [show ((0 + 1 + 1 : Nat) : Int) = 2 from rfl] at h
    rw [h]
    simp only [Finset.sum_range_succ, Finset.sum_range_zero]
    norm_num [sqrt_twentyfive]

/-- C3 at the subject `[0, 0]` and the cluster `[[3, 4], [0, 0], [6, 8]]`. -/
theorem C3_averageDistance_is_mean_of_distances_witness :
    averageL2Cluster Real.sqrt [0, 0] (([0, 0] : List ℝ).length : Int)
        [[3, 4], [0, 0], [6, 8]] (([[3, 4], [0, 0], [6, 8]] : List (List ℝ)).length : Int) =
      some (FloatVal.finite ((([[3, 4], [0, 0], [6, 8]] : List (List ℝ)).map (fun m =>
        Real.sqrt (∑ i ∈ Finset.range ([0, 0] : List ℝ).length,
          (([0, 0] : List ℝ).getD i 0 - m.getD i 0) ^ 2))).sum
            / (([[3, 4], [0, 0], [6, 8]] : List (List ℝ)).length : ℝ))) :=
  (C3_averageDistance_is_mean_of_distances [0, 0] [[3, 4], [0, 0], [6, 8]] (by simp)
    (by simp)).2.1

/-- When the squares of the first `n` elements sum to zero, every product with
these elements sums to zero. -/
theorem sum_mul_eq_zero_of_sum_sq_eq_zero (n : Nat) (f g : Nat → ℝ)
    (h : ∑ i ∈ Finset.range n, f i ^ 2 = 0) :
    ∑ i ∈ Finset.range n, f i * g i = 0 := by
  have hz := (Finset.sum_eq_zero_iff_of_nonneg (fun i _ => sq_nonneg (f i))).1 h
  apply Finset.sum_eq_zero
  intro i hi
  have hfi : f i = 0 := by
    have := hz i hi
    exact pow_eq_zero_iff (two_ne_zero) |>.1 this
  rw [hfi, zero_mul]

/-- C4, as the code behaves: for the zero vector `[0,0]` and `[1,1]`,
`cosineSimilarity` signals nothing and returns the NaN of the division `0 / 0`. -/
theorem C4_zero_norm_returns_nan_counterexample :
    cosineSimilarity Real.sqrt [0, 0] [1, 1] 2 = some FloatVal.nan := by
  rw [cosineSimilarity_eq Real.sqrt [0, 0] [1, 1] 2 (by simp) (by simp)]
  simp [dotSum, sqSum, Finset.sum_range_succ, FloatVal.div]

/-- C4, amended: for vectors `x`, `y` of equal length `n` one of which has
squared norm exactly zero, `cosineSimilarity` signals no error: it divides
`0` by the zero denominator and returns the resulting NaN. -/
theorem C4_cosineSimilarity_zero_norm_is_nan (x y : List ℝ) (n : Nat)
    (hx : x.length = n) (hy : y.length = n)
    (hz : ∑ i ∈ Finset.range n, x.getD i 0 ^ 2 = 0
      ∨ ∑ i ∈ Finset.range n, y.getD i 0 ^ 2 = 0) :
    cosineSimilarity Real.sqrt x y n = some FloatVal.nan := by
  rw [cosineSimilarity_eq Real.sqrt x y (n : Int) (by simp [hx]) (by simp [hy])]
  simp only [Int.toNat_ofNat, dotSum, sqSum]
  have hdot : ∑ i ∈ Finset.range n, x.getD i 0 * y.getD i 0 = 0 := by
    rcases hz with h | h
    · exact sum_mul_eq_zero_of_sum_sq_eq_zero n _ _ h
    · have := sum_mul_eq_zero_of_sum_sq_eq_zero n (fun i => y.getD i 0)
        (fun i => x.getD i 0) h
      simpa [mul_comm] using this
  have hden : Real.sqrt (∑ i ∈ Finset.range n, x.getD i 0 ^ 2)
      * Real.sqrt (∑ i ∈ Finset.range n, y.getD i 0 ^ 2) = 0 := by
    rcases hz with h | h
    · rw [h, Real.sqrt_zero, zero_mul]
    · rw [h, Real.sqrt_zero, mul_zero]
  rw [hdot, hden, FloatVal_div_zero_zero]

/-- C4, amended, at the vectors `[0, 0, 0]` and `[1, 2, 3]` of length `3`. -/
theorem C4_cosineSimilarity_zero_norm_is_nan_witness :
    cosineSimilarity Real.sqrt [0, 0, 0] [1, 2, 3] ((3 : Nat) : Int) = some FloatVal.nan :=
  C4_cosineSimilarity_zero_norm_is_nan [0, 0, 0] [1, 2, 3] 3 rfl rfl
    (Or.inl (by simp [Finset.sum_range_succ]))

/-- C5, as the code behaves: for the subject `[0,0]` and the empty cluster,
`averageL2Cluster` signals nothing and returns the NaN of the division `0 / 0`. -/
theorem C5_empty_cluster_returns_nan_counterexample :
    averageL2Cluster Real.sqrt [0, 0] 2 [] 0 = some FloatVal.nan := by
  rw [averageL2Cluster_eq Real.sqrt [0, 0] 2 [] 0 (fun _ => 0)
    (by intro j hj; omega)]
  simp [FloatVal.div]

/-- C5, amended: for every subject and embedding size, `averageL2Cluster`
called with an empty cluster (`clusterSize = 0`) signals no error: it divides
the empty sum `0` by `0` and returns the resulting NaN. -/
theorem C5_averageDistance_empty_cluster_is_nan (s : List ℝ) (embeddingSize : Int) :
    averageL2Cluster Real.sqrt s embeddingSize [] 0 = some FloatVal.nan := by
  rw [averageL2Cluster_eq Real.sqrt s embeddingSize [] 0 (fun _ => 0)
    (by intro j hj; omega)]
  simp [FloatVal.div]

/-- C6, as the code behaves: for `[1,2]` and `[1,2,3]` no call of `L2Norm`
signals an error: with size `2` the third element of the longer vector is
left out and the distance `0` is returned, with size `3` the shorter buffer
is read past its end. -/
theorem C6_length_mismatch_counterexample :
    L2Norm Real.sqrt [1, 2] [1, 2, 3] 2 = some 0
      ∧ L2Norm Real.sqrt [1, 2] [1, 2, 3] 3 = none := by
  constructor
  · rw [L2Norm_eq Real.sqrt [1, 2] [1, 2, 3] 2 (by simp) (by simp)]
    simp [sqDiffSum, Finset.sum_range_succ]
  · exact L2Norm_none Real.sqrt [1, 2] [1, 2, 3] 3 (Or.inl (by simp))

/-- C6, amended: for vectors `x`, `y` of different lengths nothing is checked
and the size the caller passes decides.  With a size of at most both lengths,
`L2Norm` and `cosineSimilarity` return the value computed from the first
`size` elements of each vector; with a larger size they read past the end of
the shorter buffer.  With `x` as subject and `y` in the cluster,
`averageL2Cluster` returns the mean of the distances over the first
`length x` elements when every member has at least that many, and reads
past the end of a member that has fewer. -/
theorem C6_length_mismatch_is_unchecked (x y : List ℝ) (size : Int)
    (_hne : x.length ≠ y.length) :
    (size.toNat ≤ min x.length y.length →
        L2Norm Real.sqrt x y size = some (Real.sqrt
          (∑ i ∈ Finset.range size.toNat, (x.getD i 0 - y.getD i 0) ^ 2))
        ∧ cosineSimilarity Real.sqrt x y size = some (FloatVal.div
          (∑ i ∈ Finset.range size.toNat, x.getD i 0 * y.getD i 0)
          (Real.sqrt (∑ i ∈ Finset.range size.toNat, x.getD i 0 ^ 2)
            * Real.sqrt (∑ i ∈ Finset.range size.toNat, y.getD i 0 ^ 2))))
      ∧ (min x.length y.length < size.toNat →
        L2Norm Real.sqrt x y size = none ∧ cosineSimilarity Real.sqrt x y size = none)
      ∧ (∀ cluster : List (List ℝ), y ∈ cluster →
        ((∀ m ∈ cluster, x.length ≤ m.length) →
          averageL2Cluster Real.sqrt x x.length cluster cluster.length =
            some (FloatVal.finite ((cluster.map (fun m => Real.sqrt
              (∑ i ∈ Finset.range x.length, (x.getD i 0 - m.getD i 0) ^ 2))).sum
                / cluster.length)))
        ∧ ((∃ m ∈ cluster, m.length < x.length) →
          averageL2Cluster Real.sqrt x x.length cluster cluster.length = none)) := by
  refine ⟨?_, ?_, ?_⟩
  · intro h
    have h1 : size.toNat ≤ x.length := le_trans h (min_le_left _ _)
    have h2 : size.toNat ≤ y.length := le_trans h (min_le_right _ _)
    exact ⟨by simpa [sqDiffSum] using L2Norm_eq Real.sqrt x y size h1 h2,
      by simpa [dotSum, sqSum] using cosineSimilarity_eq Real.sqrt x y size h1 h2⟩
  · intro h
    have h' : x.length < size.toNat ∨ y.length < size.toNat := by
      rcases min_lt_iff.1 h with h | h
      · exact Or.inl h
      · exact Or.inr h
    exact ⟨L2Norm_none Real.sqrt x y size h', cosineSimilarity_none Real.sqrt x y size h'⟩
  · intro cluster hy
    constructor
    · intro hall
      have h := averageL2Cluster_of_lengths Real.sqrt x (x.length : Int) cluster (by simp)
        (by intro m hm; simpa using hall m hm)
      have hN : (cluster.length : ℝ) ≠ 0 := by
        have : cluster ≠ [] := List.ne_nil_of_mem hy
        simpa using this
      rw [h, FloatVal_div_of_ne_zero _ _ hN]
      simp [sqDiffSum]
    · rintro ⟨m, hm, hshort⟩
      exact averageL2Cluster_short_member Real.sqrt x (x.length : Int) cluster m hm
        (by simpa using hshort)

/-- C6, amended, at the vectors `[1, 2]` and `[1, 2, 3]` with size `2`. -/
theorem C6_length_mismatch_is_unchecked_witness :
    L2Norm Real.sqrt [1, 2] [1, 2, 3] 2 = some (Real.sqrt
        (∑ i ∈ Finset.range (2 : Int).toNat,
          (([1, 2] : List ℝ).getD i 0 - ([1, 2, 3] : List ℝ).getD i 0) ^ 2))
      ∧ cosineSimilarity Real.sqrt [1, 2] [1, 2, 3] 2 = some (FloatVal.div
        (∑ i ∈ Finset.range (2 : Int).toNat,
          ([1, 2] : List ℝ).getD i 0 * ([1, 2, 3] : List ℝ).getD i 0)
        (Real.sqrt (∑ i ∈ Finset.range (2 : Int).toNat, ([1, 2] : List ℝ).getD i 0 ^ 2)
          * Real.sqrt (∑ i ∈ Finset.range (2 : Int).toNat,
              ([1, 2, 3] : List ℝ).getD i 0 ^ 2))) :=
  (C6_length_mismatch_is_unchecked [1, 2] [1, 2, 3] 2 (by simp)).1 (by simp)

/-- C11: for every vector `x` with a nonzero norm, `cosineSimilarity` of `x`
with itself returns `1`; in particular for `[1,1]`. -/
theorem C11_cosineSimilarity_self_is_one (x : List ℝ)
    (hn : Real.sqrt (∑ i ∈ Finset.range x.length, x.getD i 0 ^ 2) ≠ 0) :
    cosineSimilarity Real.sqrt x x x.length = some (FloatVal.finite 1)
      ∧ cosineSimilarity Real.sqrt [1, 1] [1, 1] 2 = some (FloatVal.finite 1) := by
  have key : ∀ t : List ℝ,
      Real.sqrt (∑ i ∈ Finset.range t.length, t.getD i 0 ^ 2) ≠ 0 →
      cosineSimilarity Real.sqrt t t t.length = some (FloatVal.finite 1) := by
    intro t ht
    rw [cosineSimilarity_eq Real.sqrt t t (t.length : Int) (by simp) (by simp)]
    simp only [Int.toNat_ofNat, dotSum, sqSum]
    rw [FloatVal_div_of_ne_zero _ _ (mul_ne_zero ht ht)]
    have hS : 0 ≤ ∑ i ∈ Finset.range t.length, t.getD i 0 ^ 2 :=
      Finset.sum_nonneg (fun i _ => sq_nonneg _)
    have hdot : ∑ i ∈ Finset.range t.length, t.getD i 0 * t.getD i 0
        = ∑ i ∈ Finset.range t.length, t.getD i 0 ^ 2 := by
      apply Finset.sum_congr rfl
      intro i _
      ring
    rw [hdot, Real.mul_self_sqrt hS]
    have hS0 : ∑ i ∈ Finset.range t.length, t.getD i 0 ^ 2 ≠ 0 := by
      intro h0
      rw [h0, Real.sqrt_zero] at ht
      exact ht rfl
    rw [div_self hS0]
  refine ⟨key x hn, ?_⟩
  have h := key [1, 1] (by
    simp only [List.length_cons, List.length_nil, Finset.sum_range_succ,
      Finset.sum_range_zero]
    norm_num)
  exact h

/-- C11 at the vector `[3, 4]`. -/
theorem C11_cosineSimilarity_self_is_one_witness :
    cosineSimilarity Real.sqrt [3, 4] [3, 4] (([3, 4] : List ℝ).length : Int)
      = some (FloatVal.finite 1) :=
  (C11_cosineSimilarity_self_is_one [3, 4] (by
    simp only [List.length_cons, List.length_nil, Finset.sum_range_succ,
      Finset.sum_range_zero]
    norm_num)).1

/-- C12: for vectors `x`, `y` of equal length `n`, `cosineSimilarity` returns a
value and returns the same one with the operands exchanged. -/
theorem C12_cosineSimilarity_symmetric (x y : List ℝ) (n : Nat)
    (hx : x.length = n) (hy : y.length = n) :
    ∃ c : FloatVal ℝ, cosineSimilarity Real.sqrt x y n = some c
      ∧ cosineSimilarity Real.sqrt y x n = some c := by
  refine ⟨_, cosineSimilarity_eq Real.sqrt x y (n : Int) (by simp [hx]) (by simp [hy]), ?_⟩
  rw [cosineSimilarity_eq Real.sqrt y x (n : Int) (by simp [hy]) (by simp [hx])]
  simp only [Int.toNat_ofNat, dotSum]
  rw [mul_comm (Real.sqrt (sqSum y n))]
  congr 3
  funext j
  ring

/-- C12 at the vectors `[1, 2]` and `[3, 4]` of length `2`. -/
theorem C12_cosineSimilarity_symmetric_witness :
    ∃ c : FloatVal ℝ, cosineSimilarity Real.sqrt [1, 2] [3, 4] ((2 : Nat) : Int) = some c
      ∧ cosineSimilarity Real.sqrt [3, 4] [1, 2] ((2 : Nat) : Int) = some c :=
  C12_cosineSimilarity_symmetric [1, 2] [3, 4] 2 rfl rfl

/-- C13: for every subject `s`, `averageL2Cluster` on the cluster whose single
member is `s` returns `0`. -/
theorem C13_averageDistance_of_self_is_zero (s : List ℝ) :
    averageL2Cluster Real.sqrt s s.length [s] 1 = some (FloatVal.finite 0) := by
  have h := averageL2Cluster_of_lengths Real.sqrt s (s.length : Int) [s] (by simp)
    (by simp)
  simp only [List.length_cons, List.length_nil] at h
  rw [show ((0 + 1 : Nat) : Int) = 1 from rfl] at h
  rw [h]
  simp [sqDiffSum, FloatVal.div]

/-- C15: for vectors `x`, `y` of equal length `n`, `L2Norm` and the entry point
`nativeL2Norm` return a non-negative real. -/
theorem C15_l2Distance_nonneg (x y : List ℝ) (n : Nat)
    (hx : x.length = n) (hy : y.length = n) :
    ∃ d : ℝ, L2Norm Real.sqrt x y n = some d ∧ nativeL2Norm Real.sqrt x y n = some d
      ∧ 0 ≤ d := by
  have h := L2Norm_eq Real.sqrt x y (n : Int) (by simp [hx]) (by simp [hy])
  exact ⟨_, h, by rw [nativeL2Norm_eq_L2Norm]; exact h, Real.sqrt_nonneg _⟩

/-- C15 at the vectors `[1, 2]` and `[4, 6]` of length `2`. -/
theorem C15_l2Distance_nonneg_witness :
    ∃ d : ℝ, L2Norm Real.sqrt [1, 2] [4, 6] ((2 : Nat) : Int) = some d
      ∧ nativeL2Norm Real.sqrt [1, 2] [4, 6] ((2 : Nat) : Int) = some d ∧ 0 ≤ d :=
  C15_l2Distance_nonneg [1, 2] [4, 6] 2 rfl rfl

/-- C17: for all buffers `x`, `y` and every size, the inline loop of the entry
point `nativeL2Norm` ends in the state the loop of `L2Norm` ends in (or reads
outside a buffer exactly when that one does), and `nativeL2Norm` returns what
`L2Norm` returns. -/
theorem C17_nativeL2Norm_is_L2Norm (x y : List ℝ) (size : Int) :
    nativeL2Norm.loop x y size
        { baseAddress1 := 0, baseAddress2 := 0, i := 0, squaredSum := 0 }
      = L2Norm.loop x y size
        { baseAddress1 := 0, baseAddress2 := 0, i := 0, squaredSum := 0 }
      ∧ nativeL2Norm Real.sqrt x y size = L2Norm Real.sqrt x y size :=
  ⟨nativeL2Norm_loop_eq_L2Norm_loop x y size _ _ rfl,
    nativeL2Norm_eq_L2Norm Real.sqrt x y size⟩

/-- C18: for vectors `x`, `y` of equal length `n`, `L2Norm` returns a distance,
and this distance is `0` if and only if `x[i] = y[i]` for every `i` in
`0..n-1`, that is if and only if `x = y`. -/
theorem C18_l2Distance_zero_iff_equal (x y : List ℝ) (n : Nat)
    (hx : x.length = n) (hy : y.length = n) :
    (∃ d : ℝ, L2Norm Real.sqrt x y n = some d)
      ∧ (L2Norm Real.sqrt x y n = some 0 ↔ ∀ i : Nat, i < n → x.getD i 0 = y.getD i 0)
      ∧ (L2Norm Real.sqrt x y n = some 0 ↔ x = y) := by
  have h := L2Norm_eq Real.sqrt x y (n : Int) (by simp [hx]) (by simp [hy])
  simp only [Int.toNat_ofNat, sqDiffSum] at h
  have hS : 0 ≤ ∑ j ∈ Finset.range n, (x.getD j 0 - y.getD j 0) ^ 2 :=
    Finset.sum_nonneg (fun i _ => sq_nonneg _)
  have hiff : L2Norm Real.sqrt x y n = some 0 ↔
      ∀ i : Nat, i < n → x.getD i 0 = y.getD i 0 := by
    rw [h, Option.some.injEq, Real.sqrt_eq_zero hS,
      Finset.sum_eq_zero_iff_of_nonneg (fun i _ => sq_nonneg _)]
    constructor
    · intro hz i hi
      have := hz i (Finset.mem_range.2 hi)
      have h0 : x.getD i 0 - y.getD i 0 = 0 := pow_eq_zero_iff (two_ne_zero) |>.1 this
      linarith
    · intro he i hi
      rw [he i (Finset.mem_range.1 hi), sub_self]
      norm_num
  refine ⟨⟨_, h⟩, hiff, ?_⟩
  rw [hiff]
  constructor
  · intro he
    apply List.ext_getElem (by rw [hx, hy])
    intro i h1 h2
    have := he i (by omega)
    simpa [List.getD, List.getElem?_eq_getElem h1, List.getElem?_eq_getElem h2] using this
  · intro he i _
    rw [he]

/-- C18 at the vectors `[1, 2]` and `[1, 2]` of length `2`. -/
theorem C18_l2Distance_zero_iff_equal_witness :
    L2Norm Real.sqrt [1, 2] [1, 2] ((2 : Nat) : Int) = some 0
      ↔ ([1, 2] : List ℝ) = [1, 2] :=
  (C18_l2Distance_zero_iff_equal [1, 2] [1, 2] 2 rfl rfl).2.2

/-- C14: for every subject `s`, every non-empty cluster `c` and every
permutation `c'` of `c`, `averageL2Cluster` returns on `c'` what it returns on
`c`; when the members have the length of the subject this is a finite mean. -/
theorem C14_averageDistance_permutation_invariant (s : List ℝ) (c c' : List (List ℝ))
    (hne : c ≠ []) (hperm : c'.Perm c) :
    averageL2Cluster Real.sqrt s s.length c' c'.length
        = averageL2Cluster Real.sqrt s s.length c c.length
      ∧ ((∀ m ∈ c, m.length = s.length) →
        ∃ v : ℝ, averageL2Cluster Real.sqrt s s.length c c.length = some (FloatVal.finite v)
          ∧ averageL2Cluster Real.sqrt s s.length c' c'.length
            = some (FloatVal.finite v)) := by
  have hN : (c.length : ℝ) ≠ 0 := by
    simpa using hne
  have hall : (∀ m ∈ c, s.length ≤ m.length) →
      averageL2Cluster Real.sqrt s s.length c c.length = some (FloatVal.finite
          ((c.map (fun m => Real.sqrt (sqDiffSum s m s.length))).sum / c.length))
        ∧ averageL2Cluster Real.sqrt s s.length c' c'.length = some (FloatVal.finite
          ((c.map (fun m => Real.sqrt (sqDiffSum s m s.length))).sum / c.length)) := by
    intro hle
    have h1 := averageL2Cluster_of_lengths Real.sqrt s (s.length : Int) c (by simp)
      (by intro m hm; simpa using hle m hm)
    have h2 := averageL2Cluster_of_lengths Real.sqrt s (s.length : Int) c' (by simp)
      (by intro m hm; simpa using hle m (hperm.mem_iff.1 hm))
    simp only [Int.toNat_ofNat] at h1 h2
    rw [hperm.length_eq, (hperm.map _).sum_eq] at h2
    rw [hperm.length_eq, h1, h2, FloatVal_div_of_ne_zero _ _ hN]
    exact ⟨rfl, rfl⟩
  constructor
  · by_cases hshort : ∃ m ∈ c, m.length < s.length
    · obtain ⟨m, hm, hlt⟩ := hshort
      rw [averageL2Cluster_short_member Real.sqrt s (s.length : Int) c m hm (by simpa using hlt),
        averageL2Cluster_short_member Real.sqrt s (s.length : Int) c' m (hperm.mem_iff.2 hm)
          (by simpa using hlt)]
    · have hle : ∀ m ∈ c, s.length ≤ m.length := by
        intro m hm
        by_contra hcon
        exact hshort ⟨m, hm, by omega⟩
      obtain ⟨h1, h2⟩ := hall hle
      rw [h1, h2]
  · intro hlen
    obtain ⟨h1, h2⟩ := hall (fun m hm => le_of_eq (hlen m hm).symm)
    exact ⟨_, h1, h2⟩

/-- C14 at the subject `[0, 0]` and the clusters `[[3, 4], [0, 0]]` and
`[[0, 0], [3, 4]]`. -/
theorem C14_averageDistance_permutation_invariant_witness :
    averageL2Cluster Real.sqrt [0, 0] (([0, 0] : List ℝ).length : Int) [[0, 0], [3, 4]]
        (([[0, 0], [3, 4]] : List (List ℝ)).length : Int)
      = averageL2Cluster Real.sqrt [0, 0] (([0, 0] : List ℝ).length : Int) [[3, 4], [0, 0]]
        (([[3, 4], [0, 0]] : List (List ℝ)).length : Int) :=
  (C14_averageDistance_permutation_invariant [0, 0] [[3, 4], [0, 0]] [[0, 0], [3, 4]]
    (by simp) (List.Perm.swap _ _ _)).1

/-- Scaling a vector scales each of its first `length` elements. -/
theorem getD_map_mul (a : ℝ) (x : List ℝ) (i : Nat) (hi : i < x.length) :
    (x.map (fun v => a * v)).getD i 0 = a * x.getD i 0 := by
  simp [List.getD, List.getElem?_eq_getElem hi]

theorem sqrt_sqSum_scale (a : ℝ) (ha : 0 < a) (x : List ℝ) (n : Nat) (hx : x.length = n) :
    Real.sqrt (sqSum (x.map (fun v => a * v)) n) = a * Real.sqrt (sqSum x n) := by
  have h : sqSum (x.map (fun v => a * v)) n = a ^ 2 * sqSum x n := by
    unfold sqSum
    rw [Finset.mul_sum]
    apply Finset.sum_congr rfl
    intro i hi
    rw [getD_map_mul a x i (by rw [hx]; exact Finset.mem_range.1 hi)]
    ring
  rw [h, Real.sqrt_mul (sq_nonneg a), Real.sqrt_sq ha.le]

theorem dotSum_scale_left (a : ℝ) (x y : List ℝ) (n : Nat) (hx : x.length = n) :
    dotSum (x.map (fun v => a * v)) y n = a * dotSum x y n := by
  unfold dotSum
  rw [Finset.mul_sum]
  apply Finset.sum_congr rfl
  intro i hi
  rw [getD_map_mul a x i (by rw [hx]; exact Finset.mem_range.1 hi)]
  ring

theorem dotSum_scale_right (a : ℝ) (x y : List ℝ) (n : Nat) (hy : y.length = n) :
    dotSum x (y.map (fun v => a * v)) n = a * dotSum x y n := by
  unfold dotSum
  rw [Finset.mul_sum]
  apply Finset.sum_congr rfl
  intro i hi
  rw [getD_map_mul a y i (by rw [hy]; exact Finset.mem_range.1 hi)]
  ring

/-- C19: for every real `a > 0` and vectors `x`, `y` of equal length `n` with
nonzero norms, `cosineSimilarity` returns the same finite value for `x`, `y`,
for `a*x`, `y` and for `x`, `a*y`. -/
theorem C19_cosineSimilarity_scale_invariant (a : ℝ) (x y : List ℝ) (n : Nat)
    (ha : 0 < a) (hx : x.length = n) (hy : y.length = n)
    (hnx : Real.sqrt (∑ i ∈ Finset.range n, x.getD i 0 ^ 2) ≠ 0)
    (hny : Real.sqrt (∑ i ∈ Finset.range n, y.getD i 0 ^ 2) ≠ 0) :
    ∃ c : ℝ, cosineSimilarity Real.sqrt x y n = some (FloatVal.finite c)
      ∧ cosineSimilarity Real.sqrt (x.map (fun v => a * v)) y n = some (FloatVal.finite c)
      ∧ cosineSimilarity Real.sqrt x (y.map (fun v => a * v)) n
        = some (FloatVal.finite c) := by
  have hnx' : Real.sqrt (sqSum x n) ≠ 0 := hnx
  have hny' : Real.sqrt (sqSum y n) ≠ 0 := hny
  have ha0 : a ≠ 0 := ne_of_gt ha
  refine ⟨dotSum x y n / (Real.sqrt (sqSum x n) * Real.sqrt (sqSum y n)), ?_, ?_, ?_⟩
  · rw [cosineSimilarity_eq Real.sqrt x y (n : Int) (by simp [hx]) (by simp [hy])]
    simp only [Int.toNat_ofNat]
    rw [FloatVal_div_of_ne_zero _ _ (mul_ne_zero hnx' hny')]
  · rw [cosineSimilarity_eq Real.sqrt _ y (n : Int) (by simp [hx]) (by simp [hy])]
    simp only [Int.toNat_ofNat]
    rw [dotSum_scale_left a x y n hx, sqrt_sqSum_scale a ha x n hx,
      FloatVal_div_of_ne_zero _ _ (mul_ne_zero (mul_ne_zero ha0 hnx') hny')]
    congr 2
    field_simp
    ring
  · rw [cosineSimilarity_eq Real.sqrt x _ (n : Int) (by simp [hx]) (by simp [hy])]
    simp only [Int.toNat_ofNat]
    rw [dotSum_scale_right a x y n hy, sqrt_sqSum_scale a ha y n hy,
      FloatVal_div_of_ne_zero _ _ (mul_ne_zero hnx' (mul_ne_zero ha0 hny'))]
    congr 2
    field_simp
    ring

/-- C19 at the factor `2` and the vectors `[1, 0]` and `[0, 1]` of length `2`. -/
theorem C19_cosineSimilarity_scale_invariant_witness :
    ∃ c : ℝ, cosineSimilarity Real.sqrt [1, 0] [0, 1] ((2 : Nat) : Int)
        = some (FloatVal.finite c)
      ∧ cosineSimilarity Real.sqrt (([1, 0] : List ℝ).map (fun v => 2 * v)) [0, 1]
        ((2 : Nat) : Int) = some (FloatVal.finite c)
      ∧ cosineSimilarity Real.sqrt [1, 0] (([0, 1] : List ℝ).map (fun v => 2 * v))
        ((2 : Nat) : Int) = some (FloatVal.finite c) :=
  C19_cosineSimilarity_scale_invariant 2 [1, 0] [0, 1] 2 (by norm_num) rfl rfl
    (by simp [Finset.sum_range_succ]) (by simp [Finset.sum_range_succ])

/-- C16: for every size `n` and buffers `x`, `y` that hold at least `n` elements,
`L2Norm` and `cosineSimilarity` never read outside a buffer (they return a
value); each loop is its body repeated while `i < n`, the test `i < n` holds
after `k` passes for every `k` below `max(n, 0)`, pass `k + 1` reading index
`k` of both buffers, and it fails after `max(n, 0)` passes, where the loop
ends; and buffers that agree with `x`, `y` on the indices below `n` give the
same results. -/
theorem C16_loops_read_only_first_n (x y : List ℝ) (n : Int)
    (hx : n.toNat ≤ x.length) (hy : n.toNat ≤ y.length) :
    ((∃ d : ℝ, L2Norm Real.sqrt x y n = some d)
        ∧ (∃ c : FloatVal ℝ, cosineSimilarity Real.sqrt x y n = some c))
      ∧ ((∀ s : L2State ℝ, L2Norm.loop x y n s =
            if s.i < n then (L2Norm.body x y s).bind (L2Norm.loop x y n) else some s)
        ∧ (∀ k : Nat, k < (max n 0).toNat → ∃ sk : L2State ℝ,
            iterateBody (L2Norm.body x y) k
                { baseAddress1 := 0, baseAddress2 := 0, i := 0, squaredSum := 0 } = some sk
              ∧ sk.i < n ∧ sk.baseAddress1 = k ∧ sk.baseAddress2 = k
              ∧ k < x.length ∧ k < y.length)
        ∧ (∃ s : L2State ℝ,
            iterateBody (L2Norm.body x y) (max n 0).toNat
                { baseAddress1 := 0, baseAddress2 := 0, i := 0, squaredSum := 0 } = some s
              ∧ ¬ s.i < n ∧ s.i = max n 0
              ∧ L2Norm.loop x y n
                { baseAddress1 := 0, baseAddress2 := 0, i := 0, squaredSum := 0 } = some s))
      ∧ ((∀ s : CosState ℝ, cosineSimilarity.loop x y n s =
            if s.i < n then (cosineSimilarity.body x y s).bind (cosineSimilarity.loop x y n)
            else some s)
        ∧ (∀ k : Nat, k < (max n 0).toNat → ∃ sk : CosState ℝ,
            iterateBody (cosineSimilarity.body x y) k
                { elementAddressX := 0, elementAddressY := 0, i := 0,
                  squaredSumX := 0, squaredSumY := 0, dotProduct := 0 } = some sk
              ∧ sk.i < n ∧ sk.elementAddressX = k ∧ sk.elementAddressY = k
              ∧ k < x.length ∧ k < y.length)
        ∧ (∃ s : CosState ℝ,
            iterateBody (cosineSimilarity.body x y) (max n 0).toNat
                { elementAddressX := 0, elementAddressY := 0, i := 0,
                  squaredSumX := 0, squaredSumY := 0, dotProduct := 0 } = some s
              ∧ ¬ s.i < n ∧ s.i = max n 0
              ∧ cosineSimilarity.loop x y n
                { elementAddressX := 0, elementAddressY := 0, i := 0,
                  squaredSumX := 0, squaredSumY := 0, dotProduct := 0 } = some s))
      ∧ (∀ x' y' : List ℝ, (∀ j : Nat, j < n.toNat → x'[j]? = x[j]?) →
          (∀ j : Nat, j < n.toNat → y'[j]? = y[j]?) →
          L2Norm Real.sqrt x' y' n = L2Norm Real.sqrt x y n
            ∧ cosineSimilarity Real.sqrt x' y' n = cosineSimilarity Real.sqrt x y n) := by
  have hN : (max n 0).toNat = n.toNat := by
    rcases le_total n 0 with h | h
    · rw [max_eq_right h]
      simp [Int.toNat_of_nonpos h]
    · rw [max_eq_left h]
  refine ⟨⟨⟨_, L2Norm_eq Real.sqrt x y n hx hy⟩, ⟨_, cosineSimilarity_eq Real.sqrt x y n hx hy⟩⟩,
    ⟨L2Norm_loop_unfold x y n, ?_, ?_⟩, ⟨cosineSimilarity_loop_unfold x y n, ?_, ?_⟩, ?_⟩
  · intro k hk
    rw [hN] at hk
    refine ⟨_, L2Norm_iterateBody_eq x y k _ (by simp only; omega) (by simp only; omega),
      ?_, ?_, ?_, ?_, ?_⟩
    · simp only; omega
    · simp only; omega
    · simp only; omega
    · omega
    · omega
  · rw [hN]
    refine ⟨_, L2Norm_iterateBody_eq x y n.toNat _ (by simp only; omega) (by simp only; omega),
      ?_, ?_, ?_⟩
    · simp only; omega
    · simp only; omega
    · exact L2Norm_loop_eq x y n n.toNat _ (by simp) (by simp only; omega)
        (by simp only; omega)
  · intro k hk
    rw [hN] at hk
    refine ⟨_, cosineSimilarity_iterateBody_eq x y k _ (by simp only; omega)
      (by simp only; omega), ?_, ?_, ?_, ?_, ?_⟩
    · simp only; omega
    · simp only; omega
    · simp only; omega
    · omega
    · omega
  · rw [hN]
    refine ⟨_, cosineSimilarity_iterateBody_eq x y n.toNat _ (by simp only; omega)
      (by simp only; omega), ?_, ?_, ?_⟩
    · simp only; omega
    · simp only; omega
    · exact cosineSimilarity_loop_eq x y n n.toNat _ (by simp) (by simp only; omega)
        (by simp only; omega)
  · intro x' y' hx' hy'
    obtain ⟨hlx, hgx⟩ := prefix_agree x x' n.toNat hx hx'
    obtain ⟨hly, hgy⟩ := prefix_agree y y' n.toNat hy hy'
    constructor
    · rw [L2Norm_eq Real.sqrt x' y' n hlx hly, L2Norm_eq Real.sqrt x y n hx hy]
      unfold sqDiffSum
      congr 2
      apply Finset.sum_congr rfl
      intro j hj
      rw [hgx j (Finset.mem_range.1 hj), hgy j (Finset.mem_range.1 hj)]
    · rw [cosineSimilarity_eq Real.sqrt x' y' n hlx hly,
        cosineSimilarity_eq Real.sqrt x y n hx hy]
      have h1 : dotSum x' y' n.toNat = dotSum x y n.toNat := by
        unfold dotSum
        apply Finset.sum_congr rfl
        intro j hj
        rw [hgx j (Finset.mem_range.1 hj), hgy j (Finset.mem_range.1 hj)]
      have h2 : sqSum x' n.toNat = sqSum x n.toNat := by
        unfold sqSum
        apply Finset.sum_congr rfl
        intro j hj
        rw [hgx j (Finset.mem_range.1 hj)]
      have h3 : sqSum y' n.toNat = sqSum y n.toNat := by
        unfold sqSum
        apply Finset.sum_congr rfl
        intro j hj
        rw [hgy j (Finset.mem_range.1 hj)]
      rw [h1, h2, h3]

/-- C16 at the buffers `[1, 2, 3]` and `[4, 6, 9]` with size `2`: changing
the elements at index `2` changes neither result. -/
theorem C16_loops_read_only_first_n_witness :
    L2Norm Real.sqrt [1, 2, 7] [4, 6, 8] 2 = L2Norm Real.sqrt [1, 2, 3] [4, 6, 9] 2
      ∧ cosineSimilarity Real.sqrt [1, 2, 7] [4, 6, 8] 2
        = cosineSimilarity Real.sqrt [1, 2, 3] [4, 6, 9] 2 :=
  (C16_loops_read_only_first_n [1, 2, 3] [4, 6, 9] 2 (by simp) (by simp)).2.2.2
    [1, 2, 7] [4, 6, 8]
    (by
      intro j hj
      have hj2 : j < 2 := by simpa using hj
      interval_cases j <;> rfl)
    (by
      intro j hj
      have hj2 : j < 2 := by simpa using hj
      interval_cases j <;> rfl)

end Claims
